import Mathlib

/-!
Verification of the zoraxy_plugin support library
(`example/plugins/debugger/mod/zoraxy_plugin/embed_webserver.go` and the
`includes.go` part of the same package).

The Go code is shallowly embedded: strings are Lean `String`s (lists of
characters; all the byte-level Go string operations used by the code act on
ASCII patterns, where byte positions and character positions coincide), the
embedded read-only asset tree (`embed.FS`) is an association list from
slash-separated file names to file contents, HTTP requests are a path plus the
optional `X-Zoraxy-Csrf` header value, and an HTTP response is an explicit
outcome value (redirect / not-found / 200-with-body / internal error).
Standard-library behaviour that the code calls into (`fs.ValidPath`,
`fs.ReadFile` on an `embed.FS`, `fs.Sub`, `path.Clean`, `http.FileServer`,
`encoding/json`) is modelled alongside, faithfully to the documented Go
semantics, and each such model is marked in its doc comment.
-/

namespace ZoraxyPlugin

/-! ### Models of the Go `strings` functions used by the code -/

/-- Model of Go `strings.HasPrefix s pre`. -/
def goHasPfx (s pre : String) : Bool :=
  pre.data.isPrefixOf s.data

/-- Model of Go `strings.HasSuffix s suf`. -/
def goHasSfx (s suf : String) : Bool :=
  suf.data.isSuffixOf s.data

/-- Model of Go `strings.TrimPrefix s pre`: removes one occurrence of the
leading `pre`, when present. -/
def goTrimPfx (s pre : String) : String :=
  if goHasPfx s pre then String.mk (s.data.drop pre.data.length) else s

/-- Model of Go `strings.TrimSuffix s suf`: removes one occurrence of the
trailing `suf`, when present. -/
def goTrimSfx (s suf : String) : String :=
  if goHasSfx s suf then String.mk (s.data.take (s.data.length - suf.data.length)) else s

/-- Worker for `replaceAll`: replaces non-overlapping occurrences of the
pattern `p0 :: ps`, scanning left to right, exactly as Go
`strings.Replace(s, pat, rep, -1)` does.  The `fuel` argument makes the
recursion structural; it is always called with at least the length of the
scanned list, which is enough because every step consumes at least one
character. -/
def replaceAllGo (p0 : Char) (ps rep : List Char) : Nat → List Char → List Char
  | _, [] => []
  | 0, l => l
  | fuel + 1, c :: rest =>
    if (p0 :: ps).isPrefixOf (c :: rest) then
      rep ++ replaceAllGo p0 ps rep fuel (rest.drop ps.length)
    else
      c :: replaceAllGo p0 ps rep fuel rest

/-- Model of Go `strings.ReplaceAll s pat rep` for a non-empty pattern (the
code only ever uses the patterns `"//"` and the CSRF placeholder, both
non-empty; the empty-pattern insertion behaviour of Go is therefore
irrelevant and the empty pattern is mapped to the identity). -/
def replaceAll (s pat rep : String) : String :=
  match pat.data with
  | [] => s
  | p :: ps => String.mk (replaceAllGo p ps rep.data s.data.length s.data)

/-! ### Model of `io/fs` path validity and the embedded asset tree -/

/-- Splits a character list at every `'/'`; mirrors the element loop of Go
`fs.ValidPath`, which walks the slash-separated elements of a path
(`"".splitSlash = [[]]`, so the empty name and names with empty elements are
rejected below, as in Go). -/
def splitSlash : List Char → List (List Char)
  | [] => [[]]
  | c :: rest =>
    match splitSlash rest with
    | [] => [[]]
    | h :: t => if c = '/' then [] :: h :: t else (c :: h) :: t

/-- A path element accepted by `fs.ValidPath`: non-empty and neither `"."`
nor `".."`. -/
def validPathElem (e : List Char) : Bool :=
  !e.isEmpty && e != ['.'] && e != ['.', '.']

/-- Model of Go `fs.ValidPath`: `"."` names the root; any other name must
consist of non-empty slash-separated elements none of which is `"."` or
`".."`.  (Go additionally rejects invalid UTF-8, which cannot arise for a
Lean `String`.) -/
def fsValidPath (name : String) : Bool :=
  if name = "." then true
  else (splitSlash name.data).all validPathElem

/-- The embedded asset tree (`embed.FS`): an association list from valid
slash-separated file names (e.g. `"web/index.html"`) to file contents. -/
abbrev EmbedFS := List (String × String)

/-- Model of Go `fs.ReadFile` on an `embed.FS`: an `embed.FS` rejects any
name that is not `fs.ValidPath`-valid (in particular any name containing a
`".."` or `"."` element) with a not-exist error, and otherwise returns the
content stored under exactly that name. -/
def readFileEmbed (fsys : EmbedFS) (name : String) : Option String :=
  if fsValidPath name then (fsys.find? (fun e => e.1 == name)).map (fun e => e.2) else none

/-- Model of Go `fs.Sub fsys dir`: fails on an invalid `dir`, returns `fsys`
itself for `"."`, and otherwise the subtree of entries under `dir` with the
`dir ++ "/"` name part removed. -/
def fsSub (fsys : EmbedFS) (dir : String) : Option EmbedFS :=
  if dir = "." then some fsys
  else if fsValidPath dir then
    some (fsys.filterMap (fun e =>
      if goHasPfx e.1 (dir ++ "/") then
        some (String.mk (e.1.data.drop (dir ++ "/").data.length), e.2)
      else none))
  else none

/-! ### HTTP request/response model -/

/-- The outcome of one request, as observed through the response writer:
`redirect` is `http.Redirect` with status 302 (`http.StatusFound`),
`notFound` is `http.Error .. 404`, `ok` is a 200 response carrying the given
body, and `internalError` is `http.Error .. 500`. -/
inductive HttpOutcome where
  | redirect (target : String)
  | notFound
  | ok (body : String)
  | internalError
deriving DecidableEq

/-- The HTTP status code carried by each outcome. -/
def statusOf : HttpOutcome → Nat
  | .redirect _ => 302
  | .notFound => 404
  | .ok _ => 200
  | .internalError => 500

/-- An inbound HTTP request: its path (`r.RequestURI` / `r.URL.Path`; query
strings are outside the scope of the claims) and the value of the
`X-Zoraxy-Csrf` header, `none` when the header is absent. -/
structure HttpRequest where
  requestURI : String
  csrfHeader : Option String
deriving DecidableEq

/-- Model of Go `http.Header.Get`: the empty string when the header is
absent. -/
def headerGet (h : Option String) : String := h.getD ""

/-- The effective CSRF token of a request (source lines 50-53): the header
value, or the fixed sentinel when the header is absent or empty. -/
def effectiveCsrfToken (h : Option String) : String :=
  let csrfToken := headerGet h
  if csrfToken = "" then "missing-csrf-token" else csrfToken

/-- The template placeholder replaced in HTML bodies (the literal
`"\x7b\x7b.csrfToken\x7d\x7d"` of source line 74). -/
def csrfPlaceholder : String := "\x7b\x7b.csrfToken\x7d\x7d"

/-! ### The embedded UI router -/

/-- `PluginUiRouter` of the source.  `TargetFsPfx` and `HandlerPfx` are the
`TargetFsPrefix` and `HandlerPrefix` fields of the Go struct; the `TargetFs`
field holds the embedded tree itself. -/
structure PluginUiRouter where
  PluginID : String
  TargetFs : EmbedFS
  TargetFsPfx : String
  HandlerPfx : String
deriving DecidableEq

/-- `NewPluginEmbedUIRouter` of the source (lines 27-46): each prefix gets a
leading slash prepended when absent and one trailing slash trimmed. -/
def NewPluginEmbedUIRouter (pluginID : String) (targetFs : EmbedFS)
    (targetFsPfx0 handlerPfx0 : String) : PluginUiRouter :=
  let targetFsPfx1 := if goHasPfx targetFsPfx0 "/" then targetFsPfx0 else "/" ++ targetFsPfx0
  let targetFsPfx2 := goTrimSfx targetFsPfx1 "/"
  let handlerPfx1 := if goHasPfx handlerPfx0 "/" then handlerPfx0 else "/" ++ handlerPfx0
  let handlerPfx2 := goTrimSfx handlerPfx1 "/"
  { PluginID := pluginID
    TargetFs := targetFs
    TargetFsPfx := targetFsPfx2
    HandlerPfx := handlerPfx2 }

/-- Model of Go `path.Clean` restricted to rooted paths (the only use site,
the file server, roots its input first): resolves `"."`, `".."` and empty
elements against a segment stack, never escaping above the root. -/
def cleanRooted (p : String) : String :=
  let stack := (splitSlash p.data).foldl
    (fun st e =>
      if e.isEmpty || e == ['.'] then st
      else if e == ['.', '.'] then st.dropLast
      else st ++ [e]) ([] : List (List Char))
  if stack.isEmpty then "/" else String.mk ('/' :: List.intercalate ['/'] stack)

/-- Model of Go `http.FileServer (http.FS sub)` restricted to plain file
serving: the request path is rooted, cleaned with `path.Clean`, translated
to an `fs` name and looked up in the subtree; a hit is a 200 response with
the file content, a miss a 404.  (Directory listings, index redirects and
range/conditional negotiation are outside the scope of the claims; what
matters here is that every body it can serve is the content of a file of
`sub`.) -/
def fileServerModel (sub : EmbedFS) (p : String) : HttpOutcome :=
  let upath := if goHasPfx p "/" then p else "/" ++ p
  let cleaned := cleanRooted upath
  let name := if cleaned = "/" then "." else String.mk (cleaned.data.drop 1)
  match readFileEmbed sub name with
  | some c => HttpOutcome.ok c
  | none => HttpOutcome.notFound

/-- `populateCSRFToken` of the source (lines 48-83), applied to the request
it will serve: a directory-style path (trailing slash) redirects to the same
path with `index.html` appended; a `.html` path is read from the embedded
tree under the internal asset path and served with every placeholder
occurrence replaced by the effective token (404 when the read fails); any
other path falls through to the wrapped file-server handler. -/
def populateCSRFToken (p : PluginUiRouter) (r : HttpRequest)
    (fsHandler : String → HttpOutcome) : HttpOutcome :=
  let csrfToken := effectiveCsrfToken r.csrfHeader
  if goHasSfx r.requestURI "/" then
    HttpOutcome.redirect (r.requestURI ++ "index.html")
  else if goHasSfx r.requestURI ".html" then
    let targetFilePath0 := goTrimPfx r.requestURI "/"
    let targetFilePath1 := p.TargetFsPfx ++ "/" ++ targetFilePath0
    let targetFilePath2 := goTrimPfx targetFilePath1 "/"
    match readFileEmbed p.TargetFs targetFilePath2 with
    | none => HttpOutcome.notFound
    | some content => HttpOutcome.ok (replaceAll content csrfPlaceholder csrfToken)
  else fsHandler r.requestURI

/-- `Handler` of the source (lines 86-106): strips the external handler
path part from the request path, collapses doubled slashes, builds the
subtree view of the embedded tree under the internal asset path (an error
here is a 500), and hands the rewritten request to `populateCSRFToken`
wrapping the static file server. -/
def Handler (p : PluginUiRouter) (r : HttpRequest) : HttpOutcome :=
  let rewritten0 := goTrimPfx r.requestURI p.HandlerPfx
  let rewritten1 := replaceAll rewritten0 "//" "/"
  match fsSub p.TargetFs (goTrimPfx p.TargetFsPfx "/") with
  | none => HttpOutcome.internalError
  | some subFS =>
    populateCSRFToken p { r with requestURI := rewritten1 } (fileServerModel subFS)

/-- The request path after the `Handler` rewrite (external handler path part
stripped, doubled slashes collapsed). -/
def rewrittenPath (p : PluginUiRouter) (r : HttpRequest) : String :=
  replaceAll (goTrimPfx r.requestURI p.HandlerPfx) "//" "/"

/-- The embedded-tree name an HTML request resolves to (source lines 65-67):
request path with its leading slash trimmed, put under the internal asset
path, leading slash trimmed again. -/
def htmlTargetPath (p : PluginUiRouter) (r : HttpRequest) : String :=
  goTrimPfx (p.TargetFsPfx ++ "/" ++ goTrimPfx (rewrittenPath p r) "/") "/"

/-! ### The handshake negotiator (`includes.go` part of the package) -/

/-- `RuntimeConstantValue` of the source. -/
structure RuntimeConstantValue where
  ZoraxyVersion : String
  ZoraxyUUID : String
deriving DecidableEq

/-- `ConfigureSpec` of the source: the runtime parameters received from the
host. -/
structure ConfigureSpec where
  Port : Int
  RuntimeConst : RuntimeConstantValue
deriving DecidableEq

/-- The errors `RecvConfigureSpec` can return: the error propagated from
`json.Unmarshal` (carrying the payload it failed on), and the two
`fmt.Errorf` values of the source. -/
inductive RecvError where
  | jsonError (payload : String)
  | noPortAfterConfigureFlag
  | noConfigureFlagFound
deriving DecidableEq

/-- Whether an error belongs to the `MissingConfiguration` class of the
taxonomy: no configuration directive found, or a dangling flag with no
value. -/
def RecvError.isMissingConfiguration : RecvError → Bool
  | .jsonError _ => false
  | .noPortAfterConfigureFlag => true
  | .noConfigureFlagFound => true

/-- Whether an error belongs to the `MalformedConfiguration` class of the
taxonomy: a configuration value was present but did not parse. -/
def RecvError.isMalformedConfiguration : RecvError → Bool
  | .jsonError _ => true
  | _ => false

/-- The `json.Unmarshal`-and-return step shared by the two directive forms
of `RecvConfigureSpec` (source lines 262-264 and 271-273): a parse failure
is returned as the propagated JSON error, a parse success as the parsed
parameters. -/
def parseDirectiveValue (unmarshal : String → Option ConfigureSpec) (v : String) :
    Except RecvError ConfigureSpec :=
  match unmarshal v with
  | none => Except.error (RecvError.jsonError v)
  | some configSpec => Except.ok configSpec

/-- `RecvConfigureSpec` of the source (lines 258-281), with the process
argument list (`os.Args`, program name included) passed explicitly and
`encoding/json.Unmarshal` into a `ConfigureSpec` abstracted as the
`unmarshal` parameter (`none` models a parse error).  The scan walks the
arguments left to right: an argument with the 11-character `"-configure="`
head is parsed from its byte 11 on; a bare `"-configure"` is parsed from the
following argument when there is one and is the dangling-flag error
otherwise; a scan that finds neither is the no-flag error. -/
def RecvConfigureSpec (unmarshal : String → Option ConfigureSpec) :
    List String → Except RecvError ConfigureSpec
  | [] => Except.error RecvError.noConfigureFlagFound
  | arg :: rest =>
    if goHasPfx arg "-configure=" then
      parseDirectiveValue unmarshal (String.mk (arg.data.drop 11))
    else if arg = "-configure" then
      match rest with
      | nextArg :: _ => parseDirectiveValue unmarshal nextArg
      | [] => Except.error RecvError.noPortAfterConfigureFlag
    else
      RecvConfigureSpec unmarshal rest

/-- The first configuration directive of an argument list, scanning left to
right as `RecvConfigureSpec` does: `none` when there is none,
`some none` for a bare `"-configure"` that is the final argument, and
`some (some v)` when the directive carries the value `v` (either embedded
after `"-configure="` or as the following argument). -/
def firstDirective : List String → Option (Option String)
  | [] => none
  | arg :: rest =>
    if goHasPfx arg "-configure=" then some (some (String.mk (arg.data.drop 11)))
    else if arg = "-configure" then some rest.head?
    else firstDirective rest

/-- Modelled stand-in for `encoding/json.Unmarshal` into a `ConfigureSpec`:
a finite table that agrees with Go's parser on every string it is applied to
in this file (the configuration object used by the concrete examples is
valid JSON for the schema of the spec, and `"x"`, `"not-json"` and the empty
string are not valid JSON). -/
def unmarshalModel : String → Option ConfigureSpec := fun s =>
  if s = "\x7b\"port\": 8080\x7d" then
    some { Port := 8080, RuntimeConst := { ZoraxyVersion := "", ZoraxyUUID := "" } }
  else none

/-! ### Introspection -/

/-- `PluginType` of the source (`PluginType_Router = 0`,
`PluginType_Utilities = 1`). -/
inductive PluginType where
  | Router
  | Utilities
deriving DecidableEq

/-- The integer a `PluginType` is serialized as. -/
def PluginType.toInt : PluginType → Int
  | .Router => 0
  | .Utilities => 1

/-- `CaptureRule` of the source. -/
structure CaptureRule where
  CapturePath : String
  IncludeSubPaths : Bool
deriving DecidableEq

/-- `IntroSpect` of the source: the introspection payload.  `PType` is the
`Type` field of the Go struct (`Type` is a Lean keyword); the
`SubscriptionsEvents` Go map is modelled as an association list (the
serialization model sorts its keys, as `encoding/json` does for maps). -/
structure IntroSpect where
  ID : String
  Name : String
  Author : String
  AuthorContact : String
  Description : String
  URL : String
  PType : PluginType
  VersionMajor : Int
  VersionMinor : Int
  VersionPatch : Int
  GlobalCapturePath : List CaptureRule
  GlobalCaptureIngress : String
  AlwaysCapturePath : List CaptureRule
  AlwaysCaptureIngress : String
  DynmaicCaptureIngress : String
  DynamicHandleIngress : String
  UIPath : String
  SubscriptionPath : String
  SubscriptionsEvents : List (String × String)
deriving DecidableEq

/-- A lowercase hexadecimal digit, for the `\u00XX` escapes of the JSON
serialization model. -/
def hexDigit (n : Nat) : Char :=
  if n < 10 then Char.ofNat (48 + n) else Char.ofNat (87 + n)

/-- Model of the character escaping of `encoding/json` string encoding:
quote, backslash, the short escapes for newline, carriage return and tab,
`\u00XX` for the remaining control characters, and the HTML-safe escapes for
angle brackets and ampersand. -/
def jsonEscapeChar (c : Char) : List Char :=
  if c = '"' then ['\\', '"']
  else if c = '\\' then ['\\', '\\']
  else if c = '\n' then ['\\', 'n']
  else if c = '\r' then ['\\', 'r']
  else if c = '\t' then ['\\', 't']
  else if c = '<' then ['\\', 'u', '0', '0', '3', 'c']
  else if c = '>' then ['\\', 'u', '0', '0', '3', 'e']
  else if c = '&' then ['\\', 'u', '0', '0', '2', '6']
  else if c.toNat < 32 then ['\\', 'u', '0', '0', hexDigit (c.toNat / 16), hexDigit (c.toNat % 16)]
  else [c]

/-- A JSON string literal for `s`, in the encoding of `encoding/json`. -/
def jsonQuote (s : String) : String :=
  String.mk ('"' :: ((s.data.map jsonEscapeChar).flatten ++ ['"']))

/-- `"true"` or `"false"`. -/
def boolLit (b : Bool) : String := if b then "true" else "false"

/-- Appends `suf` to the last line of a block. -/
def appendToLast (suf : String) : List String → List String
  | [] => []
  | [l] => [l ++ suf]
  | l :: ls => l :: appendToLast suf ls

/-- Joins blocks of lines as JSON value blocks are joined: a comma is
appended to the last line of every block but the final one. -/
def withCommas : List (List String) → List String
  | [] => []
  | [b] => b
  | b :: bs => appendToLast "," b ++ withCommas bs

/-- The lines of one serialized `CaptureRule`, indented by `ind` (indent
step one space, as in the source's `json.MarshalIndent(pluginSpect, "", " ")`
call). -/
def captureRuleLines (ind : String) (r : CaptureRule) : List String :=
  [ind ++ "\x7b",
   ind ++ " \"capture_path\": " ++ jsonQuote r.CapturePath ++ ",",
   ind ++ " \"include_sub_paths\": " ++ boolLit r.IncludeSubPaths,
   ind ++ "\x7d"]

/-- A string field line at top level (not yet comma-terminated). -/
def strFieldLine (tag : String) (v : String) : String :=
  " \"" ++ tag ++ "\": " ++ jsonQuote v

/-- An integer field line at top level (not yet comma-terminated). -/
def intFieldLine (tag : String) (v : Int) : String :=
  " \"" ++ tag ++ "\": " ++ toString v

/-- The block of a `[]CaptureRule` field: Go serializes a nil slice as
`null` and a non-empty one as an indented array (the example plugins leave
these slices nil or non-empty; the model renders the empty list as `null`,
matching the nil case). -/
def captureArrayBlock (tag : String) (rules : List CaptureRule) : List String :=
  match rules with
  | [] => [" \"" ++ tag ++ "\": null"]
  | _ => [" \"" ++ tag ++ "\": ["] ++ withCommas (rules.map (captureRuleLines "  ")) ++ [" ]"]

/-- Insertion into a key-sorted association list. -/
def insertSorted (kv : String × String) : List (String × String) → List (String × String)
  | [] => [kv]
  | h :: t => if kv.1 < h.1 then kv :: h :: t else h :: insertSorted kv t

/-- Key-sorts an association list, as `encoding/json` sorts map keys. -/
def sortByKey (l : List (String × String)) : List (String × String) :=
  l.foldr insertSorted []

/-- The block of the `subscriptions_events` map field: `null` for the nil
map, otherwise an indented object with key-sorted entries. -/
def eventsBlock (kvs : List (String × String)) : List String :=
  match sortByKey kvs with
  | [] => [" \"subscriptions_events\": null"]
  | s₀ :: ss =>
    [" \"subscriptions_events\": \x7b"] ++
      withCommas ((s₀ :: ss).map (fun kv => ["  " ++ jsonQuote kv.1 ++ ": " ++ jsonQuote kv.2])) ++
      [" \x7d"]

/-- Model of `json.MarshalIndent(pluginSpect, "", " ")` on an `IntroSpect`,
as the list of output lines: the struct fields in declaration order under
their JSON tags, each level indented by one further space. -/
def marshalLines (s : IntroSpect) : List String :=
  ["\x7b"] ++
  withCommas
    [[strFieldLine "id" s.ID],
     [strFieldLine "name" s.Name],
     [strFieldLine "author" s.Author],
     [strFieldLine "author_contact" s.AuthorContact],
     [strFieldLine "description" s.Description],
     [strFieldLine "url" s.URL],
     [intFieldLine "type" s.PType.toInt],
     [intFieldLine "version_major" s.VersionMajor],
     [intFieldLine "version_minor" s.VersionMinor],
     [intFieldLine "version_patch" s.VersionPatch],
     captureArrayBlock "global_capture_path" s.GlobalCapturePath,
     [strFieldLine "global_capture_ingress" s.GlobalCaptureIngress],
     captureArrayBlock "always_capture_path" s.AlwaysCapturePath,
     [strFieldLine "always_capture_ingress" s.AlwaysCaptureIngress],
     [strFieldLine "capture_path" s.DynmaicCaptureIngress],
     [strFieldLine "handle_path" s.DynamicHandleIngress],
     [strFieldLine "ui_path" s.UIPath],
     [strFieldLine "subscription_path" s.SubscriptionPath],
     eventsBlock s.SubscriptionsEvents] ++
  ["\x7d"]

/-- The serialized introspection payload as a single string. -/
def marshalIndentIntroSpect (s : IntroSpect) : String :=
  String.intercalate "\n" (marshalLines s)

/-- What `ServeIntroSpect` does to the process: either exits with the given
status after writing the given text to standard output, or returns to its
caller having written nothing. -/
inductive IntroOutcome where
  | exited (code : Nat) (stdout : String)
  | returnedNormally
deriving DecidableEq

/-- `ServeIntroSpect` of the source (lines 227-234), with `os.Args` passed
explicitly: when the argument after the program name is `"-introspect"`,
the serialized payload is printed (with the trailing newline of
`fmt.Println`) and the process exits with status 0; otherwise the function
returns normally.  The serialization error of `json.MarshalIndent` is
deliberately ignored by the source; on this struct the serializer cannot
fail, so the model is total. -/
def ServeIntroSpect (args : List String) (pluginSpect : IntroSpect) : IntroOutcome :=
  if args[1]? = some "-introspect" then
    IntroOutcome.exited 0 (marshalIndentIntroSpect pluginSpect ++ "\n")
  else
    IntroOutcome.returnedNormally

/-! ### Predicates used by the claims, and concrete demonstration data -/

/-- A path string in the normal form the spec asserts for the two router
path parts: it starts with exactly one leading slash and carries no
trailing slash. -/
def normalizedSlashForm (s : String) : Prop :=
  ['/'] <+: s.data ∧ ¬ (['/', '/'] <+: s.data) ∧ ¬ (['/'] <:+ s.data)

/-- Constructor inputs for which normalization is claimed below: non-empty,
not the bare slash, and neither starting nor ending with a doubled slash. -/
def goodSlashInput (s : String) : Prop :=
  s ≠ "" ∧ s ≠ "/" ∧ ¬ (['/', '/'] <+: s.data) ∧ ¬ (['/', '/'] <:+ s.data)

/-- The outcome serves no file content from outside the asset subtree rooted
at `core`: whenever it carries a 200 body, that body is the content of an
entry of the embedded tree lying under `core ++ "/"`, either verbatim or
with the CSRF placeholder substituted.  Redirect and error outcomes carry no
file content. -/
def servesOnlySubtreeContent (fsys : EmbedFS) (core : String) : HttpOutcome → Prop
  | .ok body =>
      ∃ e ∈ fsys, (core.data ++ ['/']) <+: e.1.data ∧
        (body = e.2 ∨ ∃ tok, body = replaceAll e.2 csrfPlaceholder tok)
  | _ => True

instance {ε α : Type} [DecidableEq ε] [DecidableEq α] : DecidableEq (Except ε α) := fun x y => by
  cases x <;> cases y
  case error.error a b => exact decidable_of_iff (a = b) (by simp)
  case error.ok a b => exact isFalse (by simp)
  case ok.error a b => exact isFalse (by simp)
  case ok.ok a b => exact decidable_of_iff (a = b) (by simp)

instance (s : String) : Decidable (normalizedSlashForm s) := by
  unfold normalizedSlashForm; infer_instance

instance (s : String) : Decidable (goodSlashInput s) := by
  unfold goodSlashInput; infer_instance

/-- A sample HTML document containing the placeholder. -/
def demoContent : String := "<p>\x7b\x7b.csrfToken\x7d\x7d</p>"

/-- A sample embedded tree: a UI subtree under `web/` and a file outside
it. -/
def demoFS : EmbedFS :=
  [("web/index.html", demoContent), ("web/style.css", "body"), ("secret/key.txt", "top-secret")]

/-- The example router: UI files under `/web`, mounted under `/ui`. -/
def demoRouter : PluginUiRouter := NewPluginEmbedUIRouter "debugger" demoFS "/web" "/ui"

/-- The subtree view of `demoFS` under `web`. -/
def demoSub : EmbedFS := [("index.html", demoContent), ("style.css", "body")]

/-- A sample introspection payload. -/
def demoSpect : IntroSpect :=
  { ID := "com.example.debugger"
    Name := "debugger"
    Author := "a"
    AuthorContact := "a@example.com"
    Description := "demo"
    URL := "example.com"
    PType := PluginType.Utilities
    VersionMajor := 1
    VersionMinor := 2
    VersionPatch := 3
    GlobalCapturePath := []
    GlobalCaptureIngress := ""
    AlwaysCapturePath := []
    AlwaysCaptureIngress := ""
    DynmaicCaptureIngress := ""
    DynamicHandleIngress := ""
    UIPath := "/ui"
    SubscriptionPath := ""
    SubscriptionsEvents := [] }

/-- The sample configuration payload (valid JSON for the schema). -/
def demoPayload : String := "\x7b\"port\": 8080\x7d"

/-- The parameters `demoPayload` parses to. -/
def demoSpec : ConfigureSpec :=
  { Port := 8080, RuntimeConst := { ZoraxyVersion := "", ZoraxyUUID := "" } }


/-! ### Lemmas about the string-operation models -/

theorem string_eq_iff_data {s t : String} : s = t ↔ s.data = t.data :=
  ⟨fun h => h ▸ rfl, fun h => by cases s; cases t; exact congrArg String.mk h⟩

theorem string_mk_data (s : String) : String.mk s.data = s := rfl

theorem goHasPfx_iff (s pre : String) : goHasPfx s pre = true ↔ pre.data <+: s.data := by
  simp [goHasPfx]

theorem goHasSfx_iff (s suf : String) : goHasSfx s suf = true ↔ suf.data <:+ s.data := by
  simp [goHasSfx]

theorem goHasPfx_eq_false_iff (s pre : String) :
    goHasPfx s pre = false ↔ ¬ (pre.data <+: s.data) := by
  rw [← goHasPfx_iff]; cases goHasPfx s pre <;> simp

theorem goHasSfx_eq_false_iff (s suf : String) :
    goHasSfx s suf = false ↔ ¬ (suf.data <:+ s.data) := by
  rw [← goHasSfx_iff]; cases goHasSfx s suf <;> simp

/-- Trimming the leading slash of `"/" ++ s` returns `s`. -/
theorem goTrimPfx_slash_append (s : String) : goTrimPfx ("/" ++ s) "/" = s := by
  have h : goHasPfx ("/" ++ s) "/" = true := by
    rw [goHasPfx_iff]
    exact ⟨s.data, by simp⟩
  rw [goTrimPfx, if_pos (by simp [h])]
  apply string_eq_iff_data.mpr
  simp

/-- A path ending in `".html"` does not end in a slash. -/
theorem hasSfx_html_not_slash {s : String} (h : goHasSfx s ".html" = true) :
    goHasSfx s "/" = false := by
  rw [goHasSfx_eq_false_iff]
  rintro ⟨b, hb⟩
  rcases (goHasSfx_iff s ".html").mp h with ⟨a, ha⟩
  have hl : s.data.getLast? = some 'l' := by
    rw [← ha]
    have : a ++ (".html" : String).data = (a ++ ['.', 'h', 't', 'm']) ++ ['l'] := by
      show a ++ ['.', 'h', 't', 'm', 'l'] = _
      simp
    rw [this, List.getLast?_concat]
  have hs : s.data.getLast? = some '/' := by
    rw [← hb]
    show (b ++ ['/']).getLast? = _
    exact List.getLast?_concat _
  rw [hl] at hs
  simp at hs

/-! ### The router's per-request case analysis -/

/-- When the subtree construction succeeds, `Handler` reduces to the
three-way case analysis on the rewritten path: trailing slash redirects,
`.html` paths are read and token-substituted from the embedded tree, and
everything else goes to the static file server over the subtree. -/
theorem handler_eq (p : PluginUiRouter) (r : HttpRequest) (sub : EmbedFS)
    (hsub : fsSub p.TargetFs (goTrimPfx p.TargetFsPfx "/") = some sub) :
    Handler p r =
      (if goHasSfx (rewrittenPath p r) "/" then
        HttpOutcome.redirect (rewrittenPath p r ++ "index.html")
      else if goHasSfx (rewrittenPath p r) ".html" then
        match readFileEmbed p.TargetFs (htmlTargetPath p r) with
        | none => HttpOutcome.notFound
        | some content =>
            HttpOutcome.ok (replaceAll content csrfPlaceholder (effectiveCsrfToken r.csrfHeader))
      else fileServerModel sub (rewrittenPath p r)) := by
  unfold Handler populateCSRFToken rewrittenPath htmlTargetPath
  rw [hsub]
  rfl

/-! ### Claims about the embedded UI router -/

/-- Claim C2: for every request whose prefix-stripped path ends in `.html`
(with the router's subtree view constructed), the router responds 404 when
the path does not resolve under the configured internal asset path part,
and responds 200 with the file's content with every placeholder occurrence
replaced by the request's effective security token when it does. -/
theorem claim_C2_html_serving (p : PluginUiRouter) (r : HttpRequest) (sub : EmbedFS)
    (hsub : fsSub p.TargetFs (goTrimPfx p.TargetFsPfx "/") = some sub)
    (hhtml : goHasSfx (rewrittenPath p r) ".html" = true) :
    (Handler p r =
      match readFileEmbed p.TargetFs (htmlTargetPath p r) with
      | none => HttpOutcome.notFound
      | some content =>
          HttpOutcome.ok (replaceAll content csrfPlaceholder (effectiveCsrfToken r.csrfHeader))) ∧
    (readFileEmbed p.TargetFs (htmlTargetPath p r) = none → statusOf (Handler p r) = 404) ∧
    (∀ content, readFileEmbed p.TargetFs (htmlTargetPath p r) = some content →
      statusOf (Handler p r) = 200) := by
  have h := handler_eq p r sub hsub
  rw [hasSfx_html_not_slash hhtml] at h
  rw [hhtml] at h
  simp only [Bool.false_eq_true, if_false, if_true] at h
  refine ⟨h, ?_, ?_⟩
  · intro hnone
    rw [h, hnone, statusOf]
  · intro content hsome
    rw [h, hsome, statusOf]

/-- Witness for C2 at the example router: `/ui/index.html` with header
token `abc123` resolves and is served with the placeholder replaced. -/
theorem claim_C2_witness :
    Handler demoRouter ⟨"/ui/index.html", some "abc123"⟩ = HttpOutcome.ok "<p>abc123</p>" := by
  have h := (claim_C2_html_serving demoRouter ⟨"/ui/index.html", some "abc123"⟩ demoSub
    (by decide) (by decide)).1
  exact h.trans (by decide)

/-- Counterexample to claim C3 as stated: with the router mounted under
`/ui`, the request `/ui/` is redirected to `/index.html` — the rewritten
path with `index.html` appended — and not to `/ui/index.html`, the original
request path with `index.html` appended. -/
theorem claim_C3_counterexample :
    Handler demoRouter ⟨"/ui/", none⟩ = HttpOutcome.redirect "/index.html" ∧
    Handler demoRouter ⟨"/ui/", none⟩ ≠ HttpOutcome.redirect "/ui/index.html" := by
  decide

/-- Claim C3 as amended: for every request whose prefix-stripped path ends
in a separator (with the subtree view constructed), the router responds
with a 302 redirect whose target is the *rewritten* request path with
`index.html` appended. -/
theorem claim_C3_amended_redirect (p : PluginUiRouter) (r : HttpRequest) (sub : EmbedFS)
    (hsub : fsSub p.TargetFs (goTrimPfx p.TargetFsPfx "/") = some sub)
    (hslash : goHasSfx (rewrittenPath p r) "/" = true) :
    Handler p r = HttpOutcome.redirect (rewrittenPath p r ++ "index.html") ∧
    statusOf (Handler p r) = 302 := by
  have h := handler_eq p r sub hsub
  rw [hslash] at h
  simp only [if_true] at h
  exact ⟨h, by rw [h, statusOf]⟩

/-- Witness for the amended C3: `/ui/` is redirected (302) to
`/index.html`. -/
theorem claim_C3_amended_witness :
    Handler demoRouter ⟨"/ui/", none⟩ = HttpOutcome.redirect ("/" ++ "index.html") ∧
    statusOf (Handler demoRouter ⟨"/ui/", none⟩) = 302 := by
  have h := claim_C3_amended_redirect demoRouter ⟨"/ui/", none⟩ demoSub (by decide) (by decide)
  exact ⟨h.1.trans (by decide), h.2⟩

/-- Claim C7: a request for an existing HTML document with no token header
is served with the fixed sentinel (a non-empty string) substituted for
every placeholder occurrence. -/
theorem claim_C7_sentinel_token (p : PluginUiRouter) (r : HttpRequest) (sub : EmbedFS)
    (content : String)
    (hheader : r.csrfHeader = none)
    (hsub : fsSub p.TargetFs (goTrimPfx p.TargetFsPfx "/") = some sub)
    (hhtml : goHasSfx (rewrittenPath p r) ".html" = true)
    (hfile : readFileEmbed p.TargetFs (htmlTargetPath p r) = some content) :
    Handler p r = HttpOutcome.ok (replaceAll content csrfPlaceholder "missing-csrf-token") ∧
    effectiveCsrfToken r.csrfHeader = "missing-csrf-token" ∧
    ("missing-csrf-token" : String) ≠ "" := by
  have htok : effectiveCsrfToken r.csrfHeader = "missing-csrf-token" := by
    rw [hheader]; rfl
  have h := (claim_C2_html_serving p r sub hsub hhtml).1
  rw [hfile] at h
  rw [htok] at h
  exact ⟨h, htok, by decide⟩

/-- Witness for C7: `/ui/index.html` with no token header is served with
the sentinel in place of the placeholder. -/
theorem claim_C7_witness :
    Handler demoRouter ⟨"/ui/index.html", none⟩ =
      HttpOutcome.ok (replaceAll demoContent csrfPlaceholder "missing-csrf-token") ∧
    effectiveCsrfToken (none : Option String) = "missing-csrf-token" ∧
    ("missing-csrf-token" : String) ≠ "" := by
  have h := claim_C7_sentinel_token demoRouter ⟨"/ui/index.html", none⟩ demoSub demoContent
    rfl (by decide) (by decide) (by decide)
  exact h

/-- Claim C10: a token header that is present with the empty string value is
treated exactly as an absent header — the whole response is unchanged when
the empty header is dropped, and the effective token substituted into HTML
bodies is the sentinel, never the empty string. -/
theorem claim_C10_empty_header (p : PluginUiRouter) (r : HttpRequest)
    (h : r.csrfHeader = some "") :
    Handler p r = Handler p { r with csrfHeader := none } ∧
    effectiveCsrfToken r.csrfHeader = "missing-csrf-token" := by
  cases r with
  | mk uri hdr =>
    cases h
    constructor
    · unfold Handler populateCSRFToken
      rfl
    · rfl

/-- Witness for C10: the empty-valued header and the absent header produce
the same response for the example router. -/
theorem claim_C10_witness :
    Handler demoRouter ⟨"/ui/index.html", some ""⟩ =
      Handler demoRouter { requestURI := "/ui/index.html", csrfHeader := none } ∧
    effectiveCsrfToken (some "") = "missing-csrf-token" := by
  exact claim_C10_empty_header demoRouter ⟨"/ui/index.html", some ""⟩ rfl

theorem slash_data : ("/" : String).data = ['/'] := rfl

theorem str_append_assoc (a b c : String) : a ++ b ++ c = a ++ (b ++ c) :=
  string_eq_iff_data.mpr (by simp)

/-- A successful `readFileEmbed` names a valid path and returns the content
of an entry of the tree stored under exactly that name. -/
theorem readFileEmbed_some {fsys : EmbedFS} {name content : String}
    (h : readFileEmbed fsys name = some content) :
    fsValidPath name = true ∧ ∃ e ∈ fsys, e.1 = name ∧ e.2 = content := by
  unfold readFileEmbed at h
  by_cases hv : fsValidPath name
  · rw [if_pos hv] at h
    rcases Option.map_eq_some'.mp h with ⟨e, hfind, hcontent⟩
    exact ⟨hv, e, List.mem_of_find?_eq_some hfind,
      by simpa using List.find?_some hfind, hcontent⟩
  · rw [if_neg hv] at h
    cases h

/-- Every entry of the subtree view built under `core` originates from an
entry of the full tree whose name lies under `core ++ "/"`. -/
theorem mem_fsSub_subtree {fsys : EmbedFS} {core : String} {e : String × String}
    (hmem : e ∈ fsys.filterMap (fun e0 =>
      if goHasPfx e0.1 (core ++ "/") then
        some (String.mk (e0.1.data.drop (core ++ "/").data.length), e0.2)
      else none)) :
    ∃ orig ∈ fsys, (core.data ++ ['/']) <+: orig.1.data ∧ orig.2 = e.2 := by
  rcases List.mem_filterMap.mp hmem with ⟨orig, horig, hif⟩
  by_cases hc : goHasPfx orig.1 (core ++ "/")
  · rw [if_pos hc] at hif
    have hpre : (core ++ "/").data <+: orig.1.data := (goHasPfx_iff _ _).mp hc
    rw [String.data_append, slash_data] at hpre
    refine ⟨orig, horig, hpre, ?_⟩
    have := congrArg Prod.snd (Option.some.inj hif)
    simpa using this
  · rw [if_neg hc] at hif
    cases hif

/-- A 200 body produced by the static file server model is the content of
an entry of the subtree it serves. -/
theorem fileServerModel_ok {sub : EmbedFS} {p body : String}
    (h : fileServerModel sub p = HttpOutcome.ok body) :
    ∃ e ∈ sub, e.2 = body := by
  simp only [fileServerModel] at h
  split at h
  case h_1 c heq =>
    rcases readFileEmbed_some heq with ⟨-, e, hmem, -, hcontent⟩
    exact ⟨e, hmem, by rw [hcontent]; exact HttpOutcome.ok.inj h⟩
  case h_2 => cases h

/-- With the internal asset path part `"/" ++ core`, the name an HTML
request resolves to is the stripped request path placed under
`core ++ "/"`. -/
theorem htmlTargetPath_eq (p : PluginUiRouter) (r : HttpRequest) (core : String)
    (hpfx : p.TargetFsPfx = "/" ++ core) :
    htmlTargetPath p r = (core ++ "/") ++ goTrimPfx (rewrittenPath p r) "/" := by
  unfold htmlTargetPath
  rw [hpfx]
  have h : ("/" ++ core) ++ "/" ++ goTrimPfx (rewrittenPath p r) "/" =
      "/" ++ ((core ++ "/") ++ goTrimPfx (rewrittenPath p r) "/") :=
    string_eq_iff_data.mpr (by simp)
  rw [h, goTrimPfx_slash_append]

/-- Claim C1: with the internal asset path part `"/" ++ core` (a valid
non-root subtree name, as in every intended configuration), a request whose
path contains a `".."` traversal segment gets an outcome that serves no
file content from outside the `core` subtree: a not-found, a redirect or an
error carries no file content, and any 200 body is the (possibly
token-substituted) content of a file under `core ++ "/"`.  The `.html`
branch cannot even resolve a name containing `".."` because the embedded
tree rejects it, and the static branch serves only the `fs.Sub` view rooted
at `core`. -/
theorem claim_C1_traversal_confined (p : PluginUiRouter) (r : HttpRequest) (core : String)
    (hpfx : p.TargetFsPfx = "/" ++ core)
    (hvalid : fsValidPath core = true)
    (hdot : core ≠ ".")
    (htrav : ['.', '.'] ∈ splitSlash r.requestURI.data) :
    servesOnlySubtreeContent p.TargetFs core (Handler p r) := by
  have hdir : goTrimPfx p.TargetFsPfx "/" = core := by
    rw [hpfx]; exact goTrimPfx_slash_append core
  have hsub : fsSub p.TargetFs (goTrimPfx p.TargetFsPfx "/") =
      some (p.TargetFs.filterMap (fun e0 =>
        if goHasPfx e0.1 (core ++ "/") then
          some (String.mk (e0.1.data.drop (core ++ "/").data.length), e0.2)
        else none)) := by
    rw [hdir]
    unfold fsSub
    rw [if_neg hdot, if_pos hvalid]
  rw [handler_eq p r _ hsub]
  cases h1 : goHasSfx (rewrittenPath p r) "/"
  case true =>
    simp only [if_true]
    trivial
  case false =>
    simp only [Bool.false_eq_true, if_false]
    cases h2 : goHasSfx (rewrittenPath p r) ".html"
    case true =>
      simp only [if_true]
      cases hf : readFileEmbed p.TargetFs (htmlTargetPath p r)
      case none => trivial
      case some content =>
        rcases readFileEmbed_some hf with ⟨-, e, hmem, hname, hcontent⟩
        refine ⟨e, hmem, ?_, Or.inr ⟨effectiveCsrfToken r.csrfHeader, by rw [hcontent]⟩⟩
        rw [hname, htmlTargetPath_eq p r core hpfx, String.data_append,
          String.data_append, slash_data]
        exact ⟨_, by rw [List.append_assoc]⟩
    case false =>
      simp only [Bool.false_eq_true, if_false]
      cases hout : fileServerModel (p.TargetFs.filterMap (fun e0 =>
          if goHasPfx e0.1 (core ++ "/") then
            some (String.mk (e0.1.data.drop (core ++ "/").data.length), e0.2)
          else none)) (rewrittenPath p r)
      case redirect => trivial
      case notFound => trivial
      case internalError => trivial
      case ok body =>
        rcases fileServerModel_ok hout with ⟨e, hmemsub, hbody⟩
        rcases mem_fsSub_subtree hmemsub with ⟨orig, horig, hpre, hsnd⟩
        exact ⟨orig, horig, hpre, Or.inl (by rw [hsnd, hbody])⟩

/-- Witness for C1: a `/ui/../../etc/passwd`-style traversal request
against the example router (asset subtree `web`).  The outcome is in fact a
404. -/
theorem claim_C1_witness :
    servesOnlySubtreeContent demoRouter.TargetFs "web"
      (Handler demoRouter ⟨"/ui/../../etc/passwd", none⟩) :=
  claim_C1_traversal_confined demoRouter ⟨"/ui/../../etc/passwd", none⟩ "web"
    (by decide) (by decide) (by decide) (by decide)

/-! ### Claims about the handshake negotiator -/

/-- `RecvConfigureSpec` is fully determined by the first configuration
directive of the left-to-right scan. -/
theorem recvConfigureSpec_eq (unmarshal : String → Option ConfigureSpec) (args : List String) :
    RecvConfigureSpec unmarshal args =
      match firstDirective args with
      | none => Except.error RecvError.noConfigureFlagFound
      | some none => Except.error RecvError.noPortAfterConfigureFlag
      | some (some v) => parseDirectiveValue unmarshal v := by
  induction args with
  | nil => rfl
  | cons arg rest ih =>
    simp only [RecvConfigureSpec, firstDirective]
    cases h1 : goHasPfx arg "-configure="
    case true =>
      simp only [if_true]
    case false =>
      simp only [Bool.false_eq_true, if_false]
      by_cases h2 : arg = "-configure"
      · rw [if_pos h2, if_pos h2]
        cases rest with
        | nil => rfl
        | cons nextArg t => rfl
      · rw [if_neg h2, if_neg h2]
        exact ih

/-- Scanning past a directive-free part of the argument list. -/
theorem firstDirective_append_none (pre l : List String) (h : firstDirective pre = none) :
    firstDirective (pre ++ l) = firstDirective l := by
  induction pre with
  | nil => rfl
  | cons a t ih =>
    rw [List.cons_append]
    simp only [firstDirective] at h ⊢
    cases h1 : goHasPfx a "-configure="
    case true => rw [h1] at h; simp at h
    case false =>
      rw [h1] at h
      simp only [Bool.false_eq_true, if_false] at h ⊢
      by_cases h2 : a = "-configure"
      · rw [if_pos h2] at h; simp at h
      · rw [if_neg h2] at h ⊢
        exact ih h

/-- Counterexample to claim C4 as stated: in
`["prog", "-configure=x", "-configure"]` the flag `-configure` is the final
argument with nothing after it, yet the call does not fail with a
missing-configuration error — the earlier `-configure=x` directive wins and
the failure is the JSON parse error on `"x"`. -/
theorem claim_C4_counterexample :
    List.getLast? ["prog", "-configure=x", "-configure"] = some "-configure" ∧
    RecvConfigureSpec unmarshalModel ["prog", "-configure=x", "-configure"] =
      Except.error (RecvError.jsonError "x") ∧
    RecvError.isMissingConfiguration (RecvError.jsonError "x") = false := by
  decide

/-- Claim C4 as amended: the error classification is decided by the *first*
configuration directive of the left-to-right scan.  The call fails with a
`MissingConfiguration` error exactly when that first directive is absent or
is a bare final `-configure`; it fails with a `MalformedConfiguration`
error exactly when the first directive carries a value that does not parse
as JSON; and it succeeds with `c` exactly when the first directive carries
a value parsing to `c`. -/
theorem claim_C4_amended_classification (unmarshal : String → Option ConfigureSpec)
    (args : List String) :
    ((∃ e, RecvConfigureSpec unmarshal args = Except.error e ∧
        e.isMissingConfiguration = true) ↔
      (firstDirective args = none ∨ firstDirective args = some none)) ∧
    ((∃ e, RecvConfigureSpec unmarshal args = Except.error e ∧
        e.isMalformedConfiguration = true) ↔
      (∃ v, firstDirective args = some (some v) ∧ unmarshal v = none)) ∧
    (∀ c, RecvConfigureSpec unmarshal args = Except.ok c ↔
      (∃ v, firstDirective args = some (some v) ∧ unmarshal v = some c)) := by
  rw [recvConfigureSpec_eq]
  rcases hd : firstDirective args with - | v0
  · simp [RecvError.isMissingConfiguration, RecvError.isMalformedConfiguration]
  · rcases v0 with - | v
    · simp [RecvError.isMissingConfiguration, RecvError.isMalformedConfiguration]
    · simp only [Option.some.injEq, parseDirectiveValue]
      cases hu : unmarshal v
      case none =>
        refine ⟨?_, ?_, ?_⟩
        · simp [RecvError.isMissingConfiguration]
        · simp only [Except.error.injEq]
          constructor
          · rintro -
            exact ⟨v, rfl, hu⟩
          · rintro -
            exact ⟨RecvError.jsonError v, rfl, rfl⟩
        · intro c
          constructor
          · rintro h
            cases h
          · rintro ⟨v1, hv1, hc⟩
            rw [← hv1, hu] at hc
            cases hc
      case some c0 =>
        refine ⟨?_, ?_, ?_⟩
        · constructor
          · rintro ⟨e, he, -⟩
            cases he
          · rintro (h | h) <;> simp at h
        · constructor
          · rintro ⟨e, he, -⟩
            cases he
          · rintro ⟨v1, hv1, hc⟩
            rw [← hv1, hu] at hc
            cases hc
        · intro c
          simp only [Except.ok.injEq]
          constructor
          · rintro rfl
            exact ⟨v, rfl, hu⟩
          · rintro ⟨v1, hv1, hc⟩
            rw [← hv1, hu] at hc
            exact Option.some.inj hc

/-- Witness for the amended C4: concrete instances of the three
equivalences. -/
theorem claim_C4_amended_witness :
    (∃ e, RecvConfigureSpec unmarshalModel ["prog"] = Except.error e ∧
      e.isMissingConfiguration = true) ∧
    (∃ e, RecvConfigureSpec unmarshalModel ["prog", "-configure=not-json"] = Except.error e ∧
      e.isMalformedConfiguration = true) ∧
    RecvConfigureSpec unmarshalModel ["prog", "-configure", demoPayload] = Except.ok demoSpec := by
  refine ⟨?_, ?_, ?_⟩
  · exact (claim_C4_amended_classification unmarshalModel ["prog"]).1.mpr (Or.inl (by decide))
  · exact (claim_C4_amended_classification unmarshalModel
      ["prog", "-configure=not-json"]).2.1.mpr ⟨"not-json", by decide, by decide⟩
  · exact ((claim_C4_amended_classification unmarshalModel
      ["prog", "-configure", demoPayload]).2.2 demoSpec).mpr ⟨demoPayload, by decide, by decide⟩

/-- Claim C5: for a payload accepted by the JSON parser, the one-argument
`-configure=<json>` form and the two-argument `-configure <json>` form give
equal results, namely success with the parsed parameters. -/
theorem claim_C5_forms_agree (unmarshal : String → Option ConfigureSpec)
    (prog payload : String) (c : ConfigureSpec)
    (hprog1 : goHasPfx prog "-configure=" = false)
    (hprog2 : prog ≠ "-configure")
    (hjson : unmarshal payload = some c) :
    RecvConfigureSpec unmarshal [prog, "-configure=" ++ payload] =
      RecvConfigureSpec unmarshal [prog, "-configure", payload] ∧
    RecvConfigureSpec unmarshal [prog, "-configure=" ++ payload] = Except.ok c := by
  have hpfx2 : goHasPfx ("-configure=" ++ payload) "-configure=" = true := by
    rw [goHasPfx_iff]
    exact ⟨payload.data, by simp⟩
  have hdropped : String.mk (("-configure=" ++ payload).data.drop 11) = payload := by
    rw [String.data_append, List.drop_left' (by rfl)]
  have hd1 : firstDirective [prog, "-configure=" ++ payload] = some (some payload) := by
    unfold firstDirective
    rw [hprog1]
    simp only [Bool.false_eq_true, if_false]
    rw [if_neg hprog2]
    unfold firstDirective
    rw [hpfx2]
    simp only [if_true]
    rw [hdropped]
  have hd2 : firstDirective [prog, "-configure", payload] = some (some payload) := by
    unfold firstDirective
    rw [hprog1]
    simp only [Bool.false_eq_true, if_false]
    rw [if_neg hprog2]
    unfold firstDirective
    rw [show goHasPfx "-configure" "-configure=" = false by decide]
    simp only [Bool.false_eq_true, if_false, if_pos rfl]
    rfl
  rw [recvConfigureSpec_eq, recvConfigureSpec_eq, hd1, hd2]
  refine ⟨rfl, ?_⟩
  show parseDirectiveValue unmarshal payload = Except.ok c
  rw [parseDirectiveValue, hjson]

/-- Witness for C5 at the sample payload. -/
theorem claim_C5_witness :
    RecvConfigureSpec unmarshalModel ["prog", "-configure=" ++ demoPayload] =
      RecvConfigureSpec unmarshalModel ["prog", "-configure", demoPayload] ∧
    RecvConfigureSpec unmarshalModel ["prog", "-configure=" ++ demoPayload] =
      Except.ok demoSpec :=
  claim_C5_forms_agree unmarshalModel "prog" demoPayload demoSpec
    (by decide) (by decide) (by decide)

/-- Claim C9: an argument that is exactly `-configure=` (nothing after the
equals sign), reached as the first directive of the scan, makes the call
fail with the JSON parse (malformed-configuration) error on the empty
value, not with a missing-configuration error. -/
theorem claim_C9_empty_configure_value (unmarshal : String → Option ConfigureSpec)
    (pre post : List String)
    (hpre : firstDirective pre = none)
    (hjson : unmarshal "" = none) :
    RecvConfigureSpec unmarshal (pre ++ "-configure=" :: post) =
      Except.error (RecvError.jsonError "") ∧
    RecvError.isMissingConfiguration (RecvError.jsonError "") = false ∧
    RecvError.isMalformedConfiguration (RecvError.jsonError "") = true := by
  have hfd : firstDirective (pre ++ "-configure=" :: post) = some (some "") := by
    rw [firstDirective_append_none pre _ hpre]
    simp only [firstDirective]
    rw [show goHasPfx "-configure=" "-configure=" = true by decide]
    simp only [if_true]
    rfl
  rw [recvConfigureSpec_eq, hfd]
  refine ⟨?_, rfl, rfl⟩
  show parseDirectiveValue unmarshal "" = Except.error (RecvError.jsonError "")
  rw [parseDirectiveValue, hjson]

/-- Witness for C9: `["prog", "-configure="]` fails with the parse error on
the empty value. -/
theorem claim_C9_witness :
    RecvConfigureSpec unmarshalModel (["prog"] ++ "-configure=" :: []) =
      Except.error (RecvError.jsonError "") ∧
    RecvError.isMissingConfiguration (RecvError.jsonError "") = false ∧
    RecvError.isMalformedConfiguration (RecvError.jsonError "") = true :=
  claim_C9_empty_configure_value unmarshalModel ["prog"] [] (by decide) (by decide)

/-! ### Claims about constructor prefix normalization -/

/-- Trimming the trailing slash at the list level. -/
theorem goTrimSfx_slash {t : String} {a : List Char} (h : t.data = a ++ ['/']) :
    (goTrimSfx t "/").data = a := by
  have hsfx : goHasSfx t "/" = true := by
    rw [goHasSfx_iff, slash_data]
    exact ⟨a, h.symm⟩
  rw [goTrimSfx, if_pos hsfx]
  show t.data.take (t.data.length - ("/" : String).data.length) = a
  rw [h, slash_data]
  have hlen : (a ++ ['/']).length - (['/'] : List Char).length = a.length := by simp
  rw [hlen]
  exact List.take_left' rfl

/-- `goTrimSfx` is the identity on strings with no trailing slash. -/
theorem goTrimSfx_no_slash {t : String} (h : goHasSfx t "/" = false) :
    goTrimSfx t "/" = t := by
  rw [goTrimSfx, if_neg (by simp [h])]

/-- The normalization the constructor applies to one path part (prepend a
slash when absent, trim one trailing slash) produces the normal form, for
every input that is non-empty, not the bare slash, and free of doubled
slashes at either end. -/
theorem normalize_step (s : String) (h : goodSlashInput s) :
    normalizedSlashForm (goTrimSfx (if goHasPfx s "/" then s else "/" ++ s) "/") := by
  obtain ⟨hne, hnslash, hpp, hss⟩ := h
  obtain ⟨e, hts, hene, hepfx, hesfx⟩ :
      ∃ e, (if goHasPfx s "/" then s else "/" ++ s).data = '/' :: e ∧ e ≠ [] ∧
        ¬ (['/'] <+: e) ∧ ¬ (['/', '/'] <:+ ('/' :: e)) := by
    cases h1 : goHasPfx s "/"
    case true =>
      rcases (goHasPfx_iff s "/").mp h1 with ⟨w, hw⟩
      rw [slash_data] at hw
      refine ⟨w, ?_, ?_, ?_, ?_⟩
      · show s.data = '/' :: w
        exact hw.symm
      · intro hwnil
        exact hnslash (string_eq_iff_data.mpr (by rw [← hw, hwnil]; rfl))
      · rintro ⟨u, hu⟩
        exact hpp ⟨u, by rw [← hw, ← hu]; rfl⟩
      · rw [show ('/' :: w) = s.data from hw]
        exact hss
    case false =>
      refine ⟨s.data, ?_, ?_, ?_, ?_⟩
      · show ("/" ++ s).data = '/' :: s.data
        rfl
      · intro h0
        exact hne (string_eq_iff_data.mpr (by rw [h0]))
      · intro hp
        have h2 : goHasPfx s "/" = true :=
          (goHasPfx_iff s "/").mpr (by rw [slash_data]; exact hp)
        rw [h1] at h2
        cases h2
      · rintro ⟨p, hp⟩
        cases p with
        | nil =>
          have h2 : s.data = ['/'] := by simpa using hp.symm
          exact hnslash (string_eq_iff_data.mpr (by rw [h2]))
        | cons p0 pt =>
          injection hp with hp0 hp1
          exact hss ⟨pt, hp1⟩
  cases h2 : goHasSfx (if goHasPfx s "/" then s else "/" ++ s) "/"
  case false =>
    rw [goTrimSfx_no_slash h2]
    refine ⟨?_, ?_, ?_⟩
    · rw [hts]
      exact ⟨e, rfl⟩
    · rintro ⟨u, hu⟩
      rw [hts] at hu
      injection hu with hu0 hu1
      exact hepfx ⟨u, hu1⟩
    · intro hsuf
      have h3 : goHasSfx (if goHasPfx s "/" then s else "/" ++ s) "/" = true :=
        (goHasSfx_iff _ "/").mpr (by rw [slash_data]; exact hsuf)
      rw [h2] at h3
      cases h3
  case true =>
    rcases (goHasSfx_iff _ "/").mp h2 with ⟨a, ha⟩
    rw [slash_data] at ha
    have hdata : (goTrimSfx (if goHasPfx s "/" then s else "/" ++ s) "/").data = a :=
      goTrimSfx_slash ha.symm
    have hae : '/' :: e = a ++ ['/'] := by
      rw [← ha] at hts
      exact hts.symm
    cases a with
    | nil =>
      exact absurd (by simpa using hae) hene
    | cons a0 at' =>
      injection hae with ha0 hae1
      cases ha0
      refine ⟨?_, ?_, ?_⟩
      · rw [hdata]
        exact ⟨at', rfl⟩
      · rintro ⟨u, hu⟩
        rw [hdata] at hu
        injection hu with hu0 hu1
        apply hepfx
        rw [hae1, ← hu1]
        exact ⟨u ++ ['/'], by simp⟩
      · rw [hdata]
        rintro ⟨b, hb⟩
        apply hesfx
        refine ⟨b, ?_⟩
        calc b ++ ['/', '/'] = (b ++ ['/']) ++ ['/'] := by simp
          _ = ('/' :: at') ++ ['/'] := by rw [hb]
          _ = '/' :: e := by rw [hae1]; rfl

/-- Counterexample to claim C6 as stated: the constructor does not
normalize an input that already starts with a doubled slash — `"//web"` is
kept verbatim, so the internal asset path part starts with two leading
slashes, not exactly one. -/
theorem claim_C6_counterexample :
    (NewPluginEmbedUIRouter "demo" [] "//web" "/ui").TargetFsPfx = "//web" ∧
    ¬ normalizedSlashForm (NewPluginEmbedUIRouter "demo" [] "//web" "/ui").TargetFsPfx := by
  constructor
  · decide
  · decide

/-- Claim C6 as amended: for every pair of input strings that are
non-empty, not the bare slash, and free of doubled slashes at either end,
the constructor produces a `UIRouteConfig` whose internal asset path part
and external handler path part each start with exactly one leading slash
and carry no trailing slash. -/
theorem claim_C6_amended_normalization (pluginID : String) (targetFs : EmbedFS)
    (tp hp : String) (htp : goodSlashInput tp) (hhp : goodSlashInput hp) :
    normalizedSlashForm (NewPluginEmbedUIRouter pluginID targetFs tp hp).TargetFsPfx ∧
    normalizedSlashForm (NewPluginEmbedUIRouter pluginID targetFs tp hp).HandlerPfx := by
  constructor
  · exact normalize_step tp htp
  · exact normalize_step hp hhp

/-- Witness for the amended C6 at the usual inputs: `/web` (already
slash-led) and `ui` (slash prepended). -/
theorem claim_C6_amended_witness :
    normalizedSlashForm (NewPluginEmbedUIRouter "debugger" [] "/web" "ui").TargetFsPfx ∧
    normalizedSlashForm (NewPluginEmbedUIRouter "debugger" [] "/web" "ui").HandlerPfx :=
  claim_C6_amended_normalization "debugger" [] "/web" "ui" (by decide) (by decide)

/-! ### Claim about introspection -/

/-- Claim C8: when the first startup argument (after the program name) is
`-introspect`, `ServeIntroSpect` writes the indented JSON serialization of
the descriptor — whose `id`, `type` and `version_major/minor/patch` lines
carry the corresponding fields of the input descriptor — to standard output
and exits the process with status 0; for every other argument list it
returns normally without output. -/
theorem claim_C8_introspect (args : List String) (s : IntroSpect) :
    (args[1]? = some "-introspect" →
      ServeIntroSpect args s = IntroOutcome.exited 0 (marshalIndentIntroSpect s ++ "\n") ∧
      (strFieldLine "id" s.ID ++ ",") ∈ marshalLines s ∧
      (intFieldLine "type" s.PType.toInt ++ ",") ∈ marshalLines s ∧
      (intFieldLine "version_major" s.VersionMajor ++ ",") ∈ marshalLines s ∧
      (intFieldLine "version_minor" s.VersionMinor ++ ",") ∈ marshalLines s ∧
      (intFieldLine "version_patch" s.VersionPatch ++ ",") ∈ marshalLines s) ∧
    (args[1]? ≠ some "-introspect" →
      ServeIntroSpect args s = IntroOutcome.returnedNormally) := by
  constructor
  · intro h
    refine ⟨by rw [ServeIntroSpect, if_pos h], ?_, ?_, ?_, ?_, ?_⟩ <;>
      simp [marshalLines, withCommas, appendToLast, List.mem_append, List.mem_cons]
  · intro h
    rw [ServeIntroSpect, if_neg h]

/-- Witness for C8: the concrete two-argument introspection call exits 0
with the serialized sample descriptor, and a non-introspection call returns
normally. -/
theorem claim_C8_witness :
    ServeIntroSpect ["prog", "-introspect"] demoSpect =
      IntroOutcome.exited 0 (marshalIndentIntroSpect demoSpect ++ "\n") ∧
    (strFieldLine "id" demoSpect.ID ++ ",") ∈ marshalLines demoSpect ∧
    ServeIntroSpect ["prog"] demoSpect = IntroOutcome.returnedNormally := by
  have h := (claim_C8_introspect ["prog", "-introspect"] demoSpect).1 (by decide)
  have h2 := (claim_C8_introspect ["prog"] demoSpect).2 (by decide)
  exact ⟨h.1, h.2.1, h2⟩

end ZoraxyPlugin
